import Mathlib

/-!
Verification of the feed synchronization pipeline and its content store.

The definitions below are a shallow embedding of the Go sources:
  * storage/feeds.go   (Feed, Fetch, DeleteItem, FeedList, FeedPersist, FeedDelete)
  * the SQL schema with the full-text-search triggers (bookmarks_ai/ad/au,
    thoughts_ai/ad/au)

Modelling conventions:
  * time.Time is modelled as Int; IsZero is equality with 0, Before is strict
    less-than, After is strict greater-than; time.Now() at a given program
    point is an explicit Int parameter.
  * Go slices are Lean lists; a nil tag slice is distinguished from an empty
    one by Option (List String).
  * generateUUID is modelled as an injective function of a per-store counter;
    each fresh draw uses the next counter value.
  * The database is a list of rows; query building and execution are merged
    into functions on that list, mirroring each Where condition of the source.
  * External collaborators (the HTML sanitizer and the RSS/Atom parser) are
    parameters: the sanitizer as a String function, the parse result of the
    response body as a value of an explicit result type.
-/

namespace Falls

/-- Errors surfaced by the storage package: the three declared error values
of storage/feeds.go plus the pass-through transport and parse errors that
Fetch returns from its collaborators. -/
inductive FeedErr where
  | noFeedURL
  | noFeedKey
  | notExistingFeedItem
  | transport (msg : String)
  | parse (msg : String)
deriving DecidableEq, Repr

/-- FeedItem from storage (id/created/updated/title/url/date/content). -/
structure FeedItem where
  ID : String
  Created : Int
  Updated : Int
  Title : String
  URL : String
  Date : Int
  Content : String
deriving DecidableEq, Repr

/-- Feed as stored in the database (storage/feeds.go). Tags is Option to keep
the Go distinction between a nil slice and an empty slice. -/
structure Feed where
  ID : String
  Created : Int
  Updated : Int
  Refreshed : Int
  LastAuthored : Int
  Title : String
  URL : String
  Etag : String
  Tags : Option (List String)
  Items : List FeedItem
deriving DecidableEq, Repr

/-- generateUUID modelled as an injective function of a counter; the counter
value in use is threaded explicitly wherever the Go code draws a fresh id. -/
def generateUUID (n : Nat) : String := String.mk (List.replicate (n + 1) 'u')

/-- A parsed feed entry as delivered by the gofeed collaborator
(Title/Link/Content/Description and the optional parsed timestamps). -/
structure ParsedItem where
  Title : String
  Link : String
  Content : String
  Description : String
  PublishedParsed : Option Int
  UpdatedParsed : Option Int
deriving DecidableEq, Repr

/-- A parsed feed document: document title, the raw Updated string together
with its optional parsed value, and the entries. -/
structure ParsedFeed where
  Title : String
  Updated : String
  UpdatedParsed : Option Int
  Items : List ParsedItem
deriving DecidableEq, Repr

/-- Result of handing the response body to the gofeed parser. -/
inductive ParseResult where
  | failure (msg : String)
  | parsed (pf : ParsedFeed)
deriving DecidableEq, Repr

/-- The observable outcome of the single HTTP GET inside Fetch: status code,
the value of the response Etag header, and the result of parsing the body. -/
structure HttpResponse where
  StatusCode : Nat
  Etag : String
  Body : ParseResult
deriving DecidableEq, Repr

/-- What client.Do returned: a transport error (in which case the Go response
pointer is nil) or a response. -/
inductive HttpOutcome where
  | transportError (msg : String)
  | success (resp : HttpResponse)
deriving DecidableEq, Repr

/-- How a Fetch call ends: normal return of nil, return of an error, or a
runtime panic (nil-pointer dereference). -/
inductive FetchOutcome where
  | ok
  | failed (e : FeedErr)
  | panicked
deriving DecidableEq, Repr

/-- Date of a candidate item (storage/feeds.go lines 108-114): the published
time, else the updated time, else the current time. -/
def computeDate (e : ParsedItem) (now : Int) : Int :=
  match e.PublishedParsed with
  | some d => d
  | none =>
    match e.UpdatedParsed with
    | some d => d
    | none => now

/-- The FeedItem built for entry e (storage/feeds.go lines 94-114); g is the
counter value used for this entry's generateUUID draw and san the sanitizer. -/
def mkItem (san : String → String) (now : Int) (g : Nat) (e : ParsedItem) : FeedItem :=
  { ID := generateUUID g
    Created := now
    Updated := now
    Title := e.Title
    URL := e.Link
    Date := computeDate e now
    Content := if e.Content = "" then san e.Description else san e.Content }

/-- The acceptance test of the merge loop written as a single predicate:
false when the date is strictly before the refreshed cutoff, false when it is
strictly after now, true otherwise. -/
def acceptDate (refreshed now d : Int) : Bool :=
  if d < refreshed then false
  else if now < d then false
  else true

/-- The merge loop over the parsed entries (storage/feeds.go lines 93-123);
a uuid counter value is consumed per entry, accepted or not, because the Go
code draws the uuid before the acceptance test. -/
def processEntries (san : String → String) (refreshed now : Int) :
    Nat → List ParsedItem → List FeedItem
  | _, [] => []
  | g, e :: rest =>
    let item := mkItem san now g e
    if item.Date < refreshed then processEntries san refreshed now (g + 1) rest
    else if now < item.Date then processEntries san refreshed now (g + 1) rest
    else item :: processEntries san refreshed now (g + 1) rest

/-- Fetch fetches new items from the given Feed (storage/feeds.go lines
42-141).  san is the bluemonday sanitizer, now the wall clock, g the uuid
counter, out what client.Do returned.  Returns how the call ended together
with the feed value after the call (the Go method mutates the feed through a
pointer).  On a transport error the Go code evaluates response.StatusCode for
its warn log while response is nil, which panics. -/
def Feed.Fetch (san : String → String) (now : Int) (g : Nat) (feed : Feed)
    (out : HttpOutcome) : FetchOutcome × Feed :=
  if feed.URL = "" then (FetchOutcome.failed FeedErr.noFeedURL, feed)
  else
    match out with
    | HttpOutcome.transportError _ => (FetchOutcome.panicked, feed)
    | HttpOutcome.success resp =>
      if resp.StatusCode = 304 then (FetchOutcome.ok, feed)
      else
        match resp.Body with
        | ParseResult.failure msg => (FetchOutcome.failed (FeedErr.parse msg), feed)
        | ParseResult.parsed parsed =>
          let feed1 := { feed with
            Items := feed.Items ++ processEntries san feed.Refreshed now g parsed.Items }
          if parsed.Updated ≠ "" ∧ parsed.UpdatedParsed = none then
            (FetchOutcome.panicked, feed1)
          else
            let feed2 :=
              if parsed.Updated ≠ "" then
                { feed1 with LastAuthored := parsed.UpdatedParsed.getD 0 }
              else feed1
            let feed3 := { feed2 with Etag := resp.Etag, Refreshed := now }
            let feed4 :=
              if feed3.Title = "" then { feed3 with Title := parsed.Title } else feed3
            (FetchOutcome.ok,
              { feed4 with
                Items := feed4.Items.mergeSort (fun a b => decide (b.Date ≤ a.Date)) })

/-- The loop body of (feed *Feed).DeleteItem: walk the items, drop the first
one whose ID matches, keep everything else in order; none when no match. -/
def deleteItemAux (ID : String) : List FeedItem → Option (List FeedItem)
  | [] => none
  | item :: rest =>
    if ID = item.ID then some rest
    else match deleteItemAux ID rest with
      | some l => some (item :: l)
      | none => none

/-- DeleteItem removes an item by ID from this feed list of items
(storage/feeds.go lines 155-167).  Returns the error and the feed after the
call (the Go method mutates the feed in place). -/
def Feed.DeleteItem (feed : Feed) (ID : String) : Option FeedErr × Feed :=
  match deleteItemAux ID feed.Items with
  | some l => (none, { feed with Items := l })
  | none => (some FeedErr.notExistingFeedItem, feed)

theorem deleteItemAux_eq (ID : String) (l : List FeedItem) :
    deleteItemAux ID l =
      if l.any (fun it => it.ID == ID) then some (l.eraseP (fun it => it.ID == ID))
      else none := by
  induction l with
  | nil => simp [deleteItemAux]
  | cons item rest ih =>
    by_cases h : ID = item.ID
    · have h' : (item.ID == ID) = true := beq_iff_eq.mpr h.symm
      simp only [deleteItemAux, if_pos h, List.any_cons, h', Bool.true_or,
        List.eraseP_cons, cond_true, if_true]
    · have h' : (item.ID == ID) = false := beq_eq_false_iff_ne.mpr (fun hh => h hh.symm)
      simp only [deleteItemAux, if_neg h, ih, List.any_cons, h', Bool.false_or,
        List.eraseP_cons, cond_false]
      by_cases hany : (rest.any fun it => it.ID == ID) = true
      · simp only [if_pos hany]
      · simp only [if_neg hany]

/-- C10: DeleteItem removes exactly the first item whose ID equals the
argument (List.eraseP removes the first match and keeps the rest in order)
and returns nil; when no item matches it returns ErrNotExistingFeedItem with
the item list untouched.  The Sublist conjunct states that the surviving
items are a subsequence of the old ones, i.e. relative order is preserved. -/
theorem deleteItem_removes_first_match (feed : Feed) (ID : String) :
    Feed.DeleteItem feed ID =
      (if feed.Items.any (fun it => it.ID == ID) then
        (none, { feed with Items := feed.Items.eraseP (fun it => it.ID == ID) })
      else (some FeedErr.notExistingFeedItem, feed))
    ∧ ((Feed.DeleteItem feed ID).2.Items).Sublist feed.Items := by
  have h := deleteItemAux_eq ID feed.Items
  constructor
  · rw [Feed.DeleteItem, h]
    by_cases hany : feed.Items.any (fun it => it.ID == ID) <;> simp [hany]
  · rw [Feed.DeleteItem, h]
    by_cases hany : feed.Items.any (fun it => it.ID == ID) <;> simp [hany]
    exact List.eraseP_sublist _

/-- The merge loop is a filter by the acceptance test followed by the item
construction; List.enumFrom records the uuid counter value of each entry. -/
theorem processEntries_eq (san : String → String) (refreshed now : Int) :
    ∀ (g : Nat) (entries : List ParsedItem),
      processEntries san refreshed now g entries =
        ((List.enumFrom g entries).filter
            (fun p => acceptDate refreshed now (computeDate p.2 now))).map
          (fun p => mkItem san now p.1 p.2) := by
  intro g entries
  induction entries generalizing g with
  | nil => simp [processEntries]
  | cons e rest ih =>
    have hdate : (mkItem san now g e).Date = computeDate e now := rfl
    by_cases h1 : computeDate e now < refreshed
    · have ha : acceptDate refreshed now (computeDate e now) = false := by
        simp [acceptDate, h1]
      simp [processEntries, hdate, h1, List.enumFrom, ha, ih]
    · by_cases h2 : now < computeDate e now
      · have ha : acceptDate refreshed now (computeDate e now) = false := by
          simp [acceptDate, h1, h2]
        simp [processEntries, hdate, h1, h2, List.enumFrom, ha, ih]
      · have ha : acceptDate refreshed now (computeDate e now) = true := by
          simp [acceptDate, h1, h2]
        simp [processEntries, hdate, h1, h2, List.enumFrom, ha, ih]

/-- C6: on a 304 response Fetch succeeds and returns before any assignment to
the feed: Etag, Refreshed, Items and every other field are exactly as they
were (the returned feed is the input feed). -/
theorem fetch_304_leaves_feed_unchanged (san : String → String) (now : Int)
    (g : Nat) (feed : Feed) (etagH : String) (body : ParseResult)
    (h : feed.URL ≠ "") :
    Feed.Fetch san now g feed (HttpOutcome.success ⟨304, etagH, body⟩) =
      (FetchOutcome.ok, feed) := by
  simp [Feed.Fetch, h]

/-- A feed with a non-empty URL and a Refreshed cutoff of 10, used as the
concrete input of several witnesses. -/
def sampleFeed : Feed :=
  { ID := "f1", Created := 1, Updated := 1, Refreshed := 10, LastAuthored := 0,
    Title := "Sample", URL := "http://feeds.example.net/rss", Etag := "abc",
    Tags := some ["tech"], Items := [] }

/-- Witness for C6 at a concrete 304 response. -/
theorem fetch_304_leaves_feed_unchanged_witness :
    sampleFeed.URL ≠ "" ∧
    Feed.Fetch id 100 0 sampleFeed
        (HttpOutcome.success ⟨304, "abc", ParseResult.failure "not read"⟩) =
      (FetchOutcome.ok, sampleFeed) :=
  ⟨by decide,
   fetch_304_leaves_feed_unchanged id 100 0 sampleFeed "abc" (ParseResult.failure "not read")
     (by decide)⟩

/-- C3 (code bug): when client.Do reports a transport error the Go code
immediately evaluates response.StatusCode for its warn log, but on a
transport error the response pointer is nil, so the call panics instead of
returning the transport error.  Evaluated here at a concrete failing input:
the outcome is the panic, not the failure that the spec promises. -/
theorem fetch_transport_error_panics :
    Feed.Fetch id 5 0 sampleFeed
        (HttpOutcome.transportError "dial tcp: lookup feeds.example.net: no such host") =
      (FetchOutcome.panicked, sampleFeed) ∧
    (FetchOutcome.panicked ≠
      FetchOutcome.failed
        (FeedErr.transport "dial tcp: lookup feeds.example.net: no such host")) := by
  exact ⟨rfl, by decide⟩

/-- C5: for a successful non-304 fetch the new items are exactly the parsed
entries whose computed date passes the acceptance test, appended to the old
items (and then stable-sorted by date descending); the acceptance test holds
iff the date is not strictly before Refreshed and not strictly after now, and
a date exactly at Refreshed is accepted. -/
theorem fetch_item_acceptance (san : String → String) (now : Int) (g : Nat)
    (feed : Feed) (status : Nat) (etagH : String) (parsed : ParsedFeed) (d : Int)
    (hs : status ≠ 304) (hu : feed.URL ≠ "")
    (hdoc : parsed.Updated = "" ∨ parsed.UpdatedParsed ≠ none)
    (hb : feed.Refreshed ≤ now) :
    ((Feed.Fetch san now g feed
        (HttpOutcome.success ⟨status, etagH, ParseResult.parsed parsed⟩)).2).Items =
      (feed.Items ++
        ((List.enumFrom g parsed.Items).filter
            (fun p => acceptDate feed.Refreshed now (computeDate p.2 now))).map
          (fun p => mkItem san now p.1 p.2)).mergeSort
        (fun a b => decide (b.Date ≤ a.Date)) ∧
    acceptDate feed.Refreshed now d = (!decide (d < feed.Refreshed) && !decide (now < d)) ∧
    acceptDate feed.Refreshed now feed.Refreshed = true := by
  refine ⟨?_, ?_, ?_⟩
  · rw [← processEntries_eq]
    by_cases hup : parsed.Updated = ""
    · by_cases ht : feed.Title = "" <;>
        simp [Feed.Fetch, hu, hs, hup, ht]
    · have hpp : parsed.UpdatedParsed ≠ none := by
        rcases hdoc with h | h
        · exact absurd h hup
        · exact h
      by_cases ht : feed.Title = "" <;>
        simp [Feed.Fetch, hu, hs, hup, hpp, ht]
  · by_cases h1 : d < feed.Refreshed
    · simp [acceptDate, h1]
    · by_cases h2 : now < d <;> simp [acceptDate, h1, h2]
  · simp [acceptDate, lt_irrefl, not_lt.mpr hb]

/-- A concrete parsed document for the C5 witness: one entry strictly before
the cutoff, one strictly in the future, one exactly at the cutoff. -/
def sampleParsed : ParsedFeed :=
  { Title := "Parsed", Updated := "", UpdatedParsed := none,
    Items :=
      [ { Title := "old", Link := "http://a/1", Content := "c1", Description := "",
          PublishedParsed := some 5, UpdatedParsed := none },
        { Title := "future", Link := "http://a/2", Content := "c2", Description := "",
          PublishedParsed := some 150, UpdatedParsed := none },
        { Title := "boundary", Link := "http://a/3", Content := "", Description := "d3",
          PublishedParsed := some 10, UpdatedParsed := none } ] }

/-- Witness for C5 at a concrete fetch where the three entries straddle the
cutoff and the clock. -/
theorem fetch_item_acceptance_witness :
    (200 ≠ 304) ∧ sampleFeed.URL ≠ "" ∧ sampleParsed.Updated = "" ∧
    sampleFeed.Refreshed ≤ 100 ∧
    ((Feed.Fetch id 100 0 sampleFeed
        (HttpOutcome.success ⟨200, "W", ParseResult.parsed sampleParsed⟩)).2).Items =
      (sampleFeed.Items ++
        ((List.enumFrom 0 sampleParsed.Items).filter
            (fun p => acceptDate sampleFeed.Refreshed 100 (computeDate p.2 100))).map
          (fun p => mkItem id 100 p.1 p.2)).mergeSort
        (fun a b => decide (b.Date ≤ a.Date)) ∧
    acceptDate sampleFeed.Refreshed 100 sampleFeed.Refreshed = true :=
  ⟨by decide, by decide, rfl, by decide,
   (fetch_item_acceptance id 100 0 sampleFeed 200 "W" sampleParsed 7
      (by decide) (by decide) (Or.inl rfl) (by decide)).1,
   (fetch_item_acceptance id 100 0 sampleFeed 200 "W" sampleParsed 7
      (by decide) (by decide) (Or.inl rfl) (by decide)).2.2⟩

/-- One row of the feeds table (schema: id, created, updated, refreshed,
last_authored, title, url, etag, tags, items). -/
structure FeedRow where
  id : String
  created : Int
  updated : Int
  refreshed : Int
  lastAuthored : Int
  title : String
  url : String
  etag : String
  tags : List String
  items : List FeedItem
deriving DecidableEq, Repr

/-- The backing store: the feeds table plus the uuid counter feeding
generateUUID. -/
structure Store where
  rows : List FeedRow
  next : Nat
deriving DecidableEq, Repr

/-- The row written by the insert branch of FeedPersist: every column comes
from the feed value. -/
def rowOfFeed (feed : Feed) : FeedRow :=
  { id := feed.ID, created := feed.Created, updated := feed.Updated,
    refreshed := feed.Refreshed, lastAuthored := feed.LastAuthored,
    title := feed.Title, url := feed.URL, etag := feed.Etag,
    tags := feed.Tags.getD [], items := feed.Items }

/-- The update branch of FeedPersist applied to one row: it sets etag, items,
last_authored, refreshed, tags, title, updated and url, and leaves id and
created as they are. -/
def updateRow (r : FeedRow) (feed : Feed) : FeedRow :=
  { r with
    etag := feed.Etag, items := feed.Items,
    lastAuthored := feed.LastAuthored, refreshed := feed.Refreshed,
    tags := feed.Tags.getD [], title := feed.Title,
    updated := feed.Updated, url := feed.URL }

/-- The defaulting prologue of FeedPersist (storage/feeds.go lines 247-263):
Title defaults to URL, zero Created to now, zero Refreshed to now minus seven
days (604800 seconds), nil Tags to the empty set, and Updated is set to now. -/
def applyDefaults (t : Int) (feed : Feed) : Feed :=
  let f1 := if feed.Title = "" then { feed with Title := feed.URL } else feed
  let f2 := if f1.Created = 0 then { f1 with Created := t } else f1
  let f3 := if f2.Refreshed = 0 then { f2 with Refreshed := t - 604800 } else f2
  let f4 :=
    match f3.Tags with
    | none => { f3 with Tags := some [] }
    | some _ => f3
  { f4 with Updated := t }

/-- FeedPersist persists a feed to the database (storage/feeds.go lines
242-300).  After the defaulting prologue it looks up an existing row by URL,
adopting its id and created when found; it then inserts with a fresh uuid
when the feed id is empty and otherwise updates the rows whose id matches.
Returns the error value, the feed after the call and the store after the
call. -/
def Store.FeedPersist (s : Store) (t : Int) (feed : Feed) :
    Option FeedErr × Feed × Store :=
  if feed.URL = "" then (some FeedErr.noFeedURL, feed, s)
  else
    let f1 := applyDefaults t feed
    let f2 :=
      match s.rows.find? (fun r => r.url == f1.URL) with
      | some r => { f1 with ID := r.id, Created := r.created }
      | none => f1
    if f2.ID = "" then
      let f3 := { f2 with ID := generateUUID s.next }
      (none, f3, ⟨s.rows ++ [rowOfFeed f3], s.next + 1⟩)
    else
      (none, f2,
        ⟨s.rows.map (fun r => if r.id == f2.ID then updateRow r f2 else r), s.next⟩)

/-- C9: with an empty URL, FeedPersist returns the missing-URL error first
thing: the feed value comes back with no field touched (defaulting has not
run) and the store is exactly the input store (no lookup, insert or update). -/
theorem feedPersist_empty_url_no_mutation (s : Store) (t : Int) (feed : Feed)
    (h : feed.URL = "") :
    Store.FeedPersist s t feed = (some FeedErr.noFeedURL, feed, s) := by
  simp [Store.FeedPersist, h]

/-- Witness for C9: a feed value with every field populated except URL comes
back untouched together with the untouched store. -/
theorem feedPersist_empty_url_no_mutation_witness :
    ({ sampleFeed with URL := "" } : Feed).URL = "" ∧
    Store.FeedPersist ⟨[], 0⟩ 42 { sampleFeed with URL := "" } =
      (some FeedErr.noFeedURL, { sampleFeed with URL := "" }, ⟨[], 0⟩) :=
  ⟨rfl, feedPersist_empty_url_no_mutation ⟨[], 0⟩ 42 { sampleFeed with URL := "" } rfl⟩

theorem applyDefaults_URL (t : Int) (feed : Feed) :
    (applyDefaults t feed).URL = feed.URL := by
  simp only [applyDefaults]
  split_ifs <;> (first | rfl | (split <;> rfl))

theorem applyDefaults_ID (t : Int) (feed : Feed) :
    (applyDefaults t feed).ID = feed.ID := by
  simp only [applyDefaults]
  split_ifs <;> (first | rfl | (split <;> rfl))

theorem generateUUID_ne_empty (n : Nat) : generateUUID n ≠ "" := by
  intro h
  have h' := congrArg String.data h
  simp [generateUUID] at h'

/-- When the by-URL lookup finds row r and r.id is non-empty, FeedPersist
takes the update branch: the feed adopts r's id and created, and every row
whose id matches is rewritten through updateRow. -/
theorem persist_found (s : Store) (t : Int) (f : Feed) (r : FeedRow)
    (hu : ¬ f.URL = "")
    (hfind : s.rows.find? (fun x => x.url == f.URL) = some r)
    (hrid : ¬ r.id = "") :
    Store.FeedPersist s t f =
      (none,
       { applyDefaults t f with ID := r.id, Created := r.created },
       ⟨s.rows.map (fun x =>
           if x.id == r.id
           then updateRow x { applyDefaults t f with ID := r.id, Created := r.created }
           else x),
         s.next⟩) := by
  simp only [Store.FeedPersist, if_neg hu, applyDefaults_URL, hfind]
  rw [if_neg hrid]

/-- When the by-URL lookup finds nothing and the caller passed an empty id,
FeedPersist takes the insert branch: a fresh uuid is drawn and a row with all
the feed's fields is appended. -/
theorem persist_notfound (s : Store) (t : Int) (f : Feed)
    (hu : ¬ f.URL = "") (hid : f.ID = "")
    (hfind : s.rows.find? (fun x => x.url == f.URL) = none) :
    Store.FeedPersist s t f =
      (none,
       { applyDefaults t f with ID := generateUUID s.next },
       ⟨s.rows ++ [rowOfFeed { applyDefaults t f with ID := generateUUID s.next }],
         s.next + 1⟩) := by
  simp only [Store.FeedPersist, if_neg hu, applyDefaults_URL, hfind]
  have hI : (applyDefaults t f).ID = "" := (applyDefaults_ID t f).trans hid
  rw [if_pos hI]

/-- A feed whose caller-supplied id matches no row: the input of the C7
counterexample. -/
def phantomFeed : Feed :=
  { ID := "x", Created := 5, Updated := 0, Refreshed := 3, LastAuthored := 0,
    Title := "T", URL := "http://phantom.example.org/feed", Etag := "",
    Tags := some [], Items := [] }

/-- Counterexample to C7: on an empty store the by-URL lookup finds no row
and the caller supplied the non-empty id "x", yet FeedPersist succeeds while
inserting nothing (the store still has no rows) and generating no fresh id
(the feed keeps id "x"). -/
theorem feedPersist_supplied_id_no_insert :
    ((⟨[], 0⟩ : Store).rows.find? (fun r => r.url == phantomFeed.URL) = none) ∧
    phantomFeed.ID ≠ "" ∧
    (Store.FeedPersist ⟨[], 0⟩ 10 phantomFeed).1 = none ∧
    (Store.FeedPersist ⟨[], 0⟩ 10 phantomFeed).2.2.rows = [] ∧
    (Store.FeedPersist ⟨[], 0⟩ 10 phantomFeed).2.1.ID = "x" := by
  refine ⟨rfl, by decide, rfl, rfl, rfl⟩

/-- C7 as amended: when the by-URL lookup finds no existing row AND the
caller-supplied id is empty, a fresh unique id is generated and an insert of
all fields is performed (when the caller supplied a non-empty id the code
updates zero rows instead, see the counterexample). -/
theorem feedPersist_insert_when_id_empty (s : Store) (t : Int) (feed : Feed)
    (hu : ¬ feed.URL = "") (hid : feed.ID = "")
    (hfind : s.rows.find? (fun x => x.url == feed.URL) = none)
    (hfresh : ∀ r ∈ s.rows, r.id ≠ generateUUID s.next) :
    (Store.FeedPersist s t feed).1 = none ∧
    (Store.FeedPersist s t feed).2.1.ID = generateUUID s.next ∧
    (Store.FeedPersist s t feed).2.2.rows =
      s.rows ++ [rowOfFeed (Store.FeedPersist s t feed).2.1] ∧
    (Store.FeedPersist s t feed).2.2.next = s.next + 1 ∧
    (∀ r ∈ s.rows, r.id ≠ (Store.FeedPersist s t feed).2.1.ID) := by
  rw [persist_notfound s t feed hu hid hfind]
  exact ⟨rfl, rfl, rfl, rfl, hfresh⟩

/-- Witness for C7 at a concrete insert: the store gains exactly the new row
and the feed carries the freshly generated id. -/
theorem feedPersist_insert_when_id_empty_witness :
    ¬ ({ sampleFeed with ID := "" } : Feed).URL = "" ∧
    (Store.FeedPersist ⟨[], 0⟩ 55 { sampleFeed with ID := "" }).2.1.ID = generateUUID 0 ∧
    (Store.FeedPersist ⟨[], 0⟩ 55 { sampleFeed with ID := "" }).2.2.rows =
      [] ++ [rowOfFeed (Store.FeedPersist ⟨[], 0⟩ 55 { sampleFeed with ID := "" }).2.1] ∧
    (Store.FeedPersist ⟨[], 0⟩ 55 { sampleFeed with ID := "" }).2.2.next = 0 + 1 :=
  ⟨by decide,
   (feedPersist_insert_when_id_empty ⟨[], 0⟩ 55 { sampleFeed with ID := "" }
      (by decide) rfl rfl (by simp)).2.1,
   (feedPersist_insert_when_id_empty ⟨[], 0⟩ 55 { sampleFeed with ID := "" }
      (by decide) rfl rfl (by simp)).2.2.1,
   (feedPersist_insert_when_id_empty ⟨[], 0⟩ 55 { sampleFeed with ID := "" }
      (by decide) rfl rfl (by simp)).2.2.2.1⟩

/-- Well-formedness of the feeds table: ids are unique and non-empty, urls
are unique (the schema declares url UNIQUE and id PRIMARY KEY), and no stored
id collides with a uuid the generator has yet to draw. -/
def Store.ok (s : Store) : Prop :=
  (s.rows.map FeedRow.id).Nodup ∧ (s.rows.map FeedRow.url).Nodup ∧
  (∀ r ∈ s.rows, r.id ≠ "") ∧
  (∀ r ∈ s.rows, ∀ m, s.next ≤ m → r.id ≠ generateUUID m)

theorem countP_url_after_update (fU : Feed) (rid U : String) (hfu : fU.URL = U) :
    ∀ (l : List FeedRow), (∀ x ∈ l, x.id = rid → x.url = U) →
      (l.map (fun x => if x.id == rid then updateRow x fU else x)).countP
          (fun x => x.url == U) =
        l.countP (fun x => x.url == U) := by
  intro l hall
  induction l with
  | nil => rfl
  | cons x xs ih =>
    simp only [List.map_cons, List.countP_cons]
    have hx : ((if x.id == rid then updateRow x fU else x).url == U) = (x.url == U) := by
      by_cases hxid : (x.id == rid) = true
      · have hxu : x.url = U := hall x (by simp) (beq_iff_eq.mp hxid)
        have hfu' : (updateRow x fU).url = U := hfu
        simp [hxid, hfu', hxu]
      · simp [hxid]
    rw [hx, ih (fun y hy => hall y (by simp [hy]))]

theorem countP_url_eq_one (U : String) :
    ∀ (l : List FeedRow), (l.map FeedRow.url).Nodup →
      ∀ r ∈ l, r.url = U → l.countP (fun x => x.url == U) = 1 := by
  intro l
  induction l with
  | nil => intro _ r hr; cases hr
  | cons x xs ih =>
    intro hnd r hr hU
    have hnd' : x.url ∉ xs.map FeedRow.url ∧ (xs.map FeedRow.url).Nodup := by
      simpa [List.nodup_cons] using hnd
    rcases List.mem_cons.mp hr with rfl | hr'
    · have hz : xs.countP (fun y => y.url == U) = 0 := by
        rw [List.countP_eq_zero]
        intro y hy
        simp only [beq_iff_eq]
        intro hyU
        exact hnd'.1 (by
          have : r.url ∈ xs.map FeedRow.url := by
            rw [hU, ← hyU]
            exact List.mem_map_of_mem FeedRow.url hy
          exact this)
      simp [List.countP_cons, hz, hU]
    · have hx : (x.url == U) = false := by
        simp only [beq_eq_false_iff_ne]
        intro hxU
        exact hnd'.1 (by
          rw [hxU, ← hU]
          exact List.mem_map_of_mem FeedRow.url hr')
      simp [List.countP_cons, hx, ih hnd'.2 r hr' hU]

theorem find?_map_cond (U rid : String) (F : FeedRow → FeedRow) :
    ∀ (l : List FeedRow) (r : FeedRow),
      (l.map FeedRow.id).Nodup →
      l.find? (fun x => x.url == U) = some r →
      r.id = rid →
      ((F r).url == U) = true →
      (l.map (fun x => if x.id == rid then F x else x)).find? (fun x => x.url == U)
        = some (F r) := by
  intro l
  induction l with
  | nil => intro r _ hf; simp at hf
  | cons x xs ih =>
    intro r hnd hf hrid hFu
    have hnd' : x.id ∉ xs.map FeedRow.id ∧ (xs.map FeedRow.id).Nodup := by
      simpa [List.nodup_cons] using hnd
    by_cases hx : (x.url == U) = true
    · have hr : x = r := by
        have := List.find?_cons_of_pos (p := fun y => y.url == U) xs hx
        rw [this] at hf
        exact Option.some.inj hf
      subst hr
      have hcond : (x.id == rid) = true := beq_iff_eq.mpr hrid
      simp only [List.map_cons, hcond, if_true]
      exact List.find?_cons_of_pos _ hFu
    · have hf' : xs.find? (fun y => y.url == U) = some r := by
        rw [List.find?_cons_of_neg _ (by simp [hx])] at hf
        exact hf
      have hrmem := List.mem_of_find?_eq_some hf'
      have hxid : (x.id == rid) = false := by
        simp only [beq_eq_false_iff_ne]
        intro hxr
        exact hnd'.1 (by
          rw [hxr, ← hrid]
          exact List.mem_map_of_mem FeedRow.id hrmem)
      simp only [List.map_cons, hxid, if_false]
      rw [List.find?_cons_of_neg _ (by simp [hx])]
      exact ih r hnd'.2 hf' hrid hFu

/-- Counterexample to C2: on an empty store, a first FeedPersist call with
URL u and the (non-existing) caller-supplied id "x" updates zero rows, then a
second call with the same URL and no id inserts a fresh row, so the second
call does not resolve to the first call's id. -/
theorem feedPersist_two_calls_id_mismatch :
    (Store.FeedPersist ⟨[], 0⟩ 10 phantomFeed).1 = none ∧
    (Store.FeedPersist (Store.FeedPersist ⟨[], 0⟩ 10 phantomFeed).2.2 20
        { phantomFeed with ID := "" }).1 = none ∧
    (Store.FeedPersist (Store.FeedPersist ⟨[], 0⟩ 10 phantomFeed).2.2 20
        { phantomFeed with ID := "" }).2.1.ID ≠
      (Store.FeedPersist ⟨[], 0⟩ 10 phantomFeed).2.1.ID := by
  refine ⟨rfl, rfl, by decide⟩

/-- C2 as amended: from any well-formed store, two FeedPersist calls with the
same URL where BOTH calls omit the id resolve to one row: the second call
comes back with the first call's id and Created timestamp, both calls
succeed, and afterwards exactly one row carries that URL.  (The original
claim, which allowed the first call to carry an arbitrary id, fails: see the
counterexample.) -/
theorem feedPersist_idempotent_by_url (s : Store) (t1 t2 : Int) (f1 f2 : Feed)
    (hok : Store.ok s) (hu : ¬ f1.URL = "") (hu2 : f2.URL = f1.URL)
    (h1 : f1.ID = "") (_h2 : f2.ID = "") :
    (Store.FeedPersist (Store.FeedPersist s t1 f1).2.2 t2 f2).2.1.ID =
      (Store.FeedPersist s t1 f1).2.1.ID ∧
    (Store.FeedPersist (Store.FeedPersist s t1 f1).2.2 t2 f2).2.1.Created =
      (Store.FeedPersist s t1 f1).2.1.Created ∧
    ((Store.FeedPersist (Store.FeedPersist s t1 f1).2.2 t2 f2).2.2.rows.countP
        (fun r => r.url == f1.URL)) = 1 ∧
    (Store.FeedPersist s t1 f1).1 = none ∧
    (Store.FeedPersist (Store.FeedPersist s t1 f1).2.2 t2 f2).1 = none := by
  obtain ⟨hndid, hndurl, hne, hfresh⟩ := hok
  have hu' : ¬ f2.URL = "" := by rw [hu2]; exact hu
  rcases hfA : s.rows.find? (fun x => x.url == f1.URL) with _ | r
  · -- no row with this URL yet: insert then update
    have hP1 := persist_notfound s t1 f1 hu h1 hfA
    have hrowurl :
        (rowOfFeed { applyDefaults t1 f1 with ID := generateUUID s.next }).url = f1.URL := by
      show ({ applyDefaults t1 f1 with ID := generateUUID s.next } : Feed).URL = f1.URL
      exact applyDefaults_URL t1 f1
    have hfind1 :
        (s.rows ++ [rowOfFeed { applyDefaults t1 f1 with ID := generateUUID s.next }]).find?
            (fun x => x.url == f2.URL) =
          some (rowOfFeed { applyDefaults t1 f1 with ID := generateUUID s.next }) := by
      simp only [hu2]
      rw [List.find?_append, hfA]
      simp [List.find?, hrowurl]
    have hid1 :
        ¬ (rowOfFeed { applyDefaults t1 f1 with ID := generateUUID s.next }).id = "" := by
      show ¬ generateUUID s.next = ""
      exact generateUUID_ne_empty s.next
    have hP2 := persist_found
      ⟨s.rows ++ [rowOfFeed { applyDefaults t1 f1 with ID := generateUUID s.next }], s.next + 1⟩
      t2 f2 (rowOfFeed { applyDefaults t1 f1 with ID := generateUUID s.next }) hu' hfind1 hid1
    rw [hP1, hP2]
    refine ⟨rfl, rfl, ?_, rfl, rfl⟩
    have hfu2 :
        ({ applyDefaults t2 f2 with
            ID := (rowOfFeed { applyDefaults t1 f1 with ID := generateUUID s.next }).id,
            Created := (rowOfFeed { applyDefaults t1 f1 with ID := generateUUID s.next }).created } :
          Feed).URL = f1.URL := by
      show (applyDefaults t2 f2).URL = f1.URL
      rw [applyDefaults_URL, hu2]
    rw [countP_url_after_update _ _ _ hfu2]
    · rw [List.countP_append]
      have hz : s.rows.countP (fun x => x.url == f1.URL) = 0 := by
        rw [List.countP_eq_zero]
        intro y hy
        simpa using List.find?_eq_none.mp hfA y hy
      simp [hz, List.countP_cons, hrowurl]
    · intro x hx hxid
      rcases List.mem_append.mp hx with hxs | hxnew
      · exact absurd (by exact hxid)
          (hfresh x hxs s.next le_rfl)
      · have : x = rowOfFeed { applyDefaults t1 f1 with ID := generateUUID s.next } := by
          simpa using hxnew
        rw [this]
        exact hrowurl
  · -- a row with this URL exists: two updates of that same row
    have hrmem := List.mem_of_find?_eq_some hfA
    have hrurl : r.url = f1.URL := by simpa using List.find?_some hfA
    have hrid : ¬ r.id = "" := hne r hrmem
    have hP1 := persist_found s t1 f1 r hu hfA hrid
    have hupdurl :
        ((updateRow r { applyDefaults t1 f1 with ID := r.id, Created := r.created }).url
          == f1.URL) = true := by
      show (({ applyDefaults t1 f1 with ID := r.id, Created := r.created } : Feed).URL
        == f1.URL) = true
      simp [applyDefaults_URL]
    have hfind2 :
        ((s.rows.map (fun x =>
            if x.id == r.id
            then updateRow x { applyDefaults t1 f1 with ID := r.id, Created := r.created }
            else x)).find? (fun x => x.url == f2.URL)) =
          some (updateRow r { applyDefaults t1 f1 with ID := r.id, Created := r.created }) := by
      simp only [hu2]
      exact find?_map_cond f1.URL r.id _ s.rows r hndid hfA rfl hupdurl
    have hid2 :
        ¬ (updateRow r { applyDefaults t1 f1 with ID := r.id, Created := r.created }).id = "" := by
      show ¬ r.id = ""
      exact hrid
    have hP2 := persist_found
      ⟨s.rows.map (fun x =>
          if x.id == r.id
          then updateRow x { applyDefaults t1 f1 with ID := r.id, Created := r.created }
          else x), s.next⟩
      t2 f2 (updateRow r { applyDefaults t1 f1 with ID := r.id, Created := r.created })
      hu' hfind2 hid2
    rw [hP1, hP2]
    refine ⟨rfl, rfl, ?_, rfl, rfl⟩
    have hfu2 :
        ({ applyDefaults t2 f2 with
            ID := (updateRow r { applyDefaults t1 f1 with ID := r.id, Created := r.created }).id,
            Created :=
              (updateRow r { applyDefaults t1 f1 with ID := r.id, Created := r.created }).created } :
          Feed).URL = f1.URL := by
      show (applyDefaults t2 f2).URL = f1.URL
      rw [applyDefaults_URL, hu2]
    rw [countP_url_after_update _ _ _ hfu2]
    · have hfu1 :
          ({ applyDefaults t1 f1 with ID := r.id, Created := r.created } : Feed).URL = f1.URL := by
        show (applyDefaults t1 f1).URL = f1.URL
        exact applyDefaults_URL t1 f1
      rw [countP_url_after_update _ _ _ hfu1]
      · exact countP_url_eq_one f1.URL s.rows hndurl r hrmem hrurl
      · intro x hx hxid
        have hxr : x = r := List.inj_on_of_nodup_map hndid hx hrmem hxid
        rw [hxr]
        exact hrurl
    · intro x hx hxid
      rcases List.mem_map.mp hx with ⟨y, hy, hxy⟩
      have hyid : y.id = x.id := by
        rw [← hxy]
        by_cases hc : (y.id == r.id) = true <;> simp [hc, updateRow]
      have hyr : y = r := List.inj_on_of_nodup_map hndid hy hrmem (hyid.trans hxid)
      have : x = updateRow r { applyDefaults t1 f1 with ID := r.id, Created := r.created } := by
        rw [← hxy, hyr]
        simp
      rw [this]
      exact beq_iff_eq.mp hupdurl

/-- Witness for the amended C2: on the empty store, persisting the sample
URL twice (first plain, then with a new title) yields matching ids and
created stamps and exactly one row with that URL. -/
theorem feedPersist_idempotent_by_url_witness :
    (Store.FeedPersist (Store.FeedPersist ⟨[], 0⟩ 10 { sampleFeed with ID := "" }).2.2 20
        { sampleFeed with ID := "", Title := "New" }).2.1.ID =
      (Store.FeedPersist ⟨[], 0⟩ 10 { sampleFeed with ID := "" }).2.1.ID ∧
    (Store.FeedPersist (Store.FeedPersist ⟨[], 0⟩ 10 { sampleFeed with ID := "" }).2.2 20
        { sampleFeed with ID := "", Title := "New" }).2.1.Created =
      (Store.FeedPersist ⟨[], 0⟩ 10 { sampleFeed with ID := "" }).2.1.Created ∧
    ((Store.FeedPersist (Store.FeedPersist ⟨[], 0⟩ 10 { sampleFeed with ID := "" }).2.2 20
        { sampleFeed with ID := "", Title := "New" }).2.2.rows.countP
      (fun r => r.url == ({ sampleFeed with ID := "" } : Feed).URL)) = 1 :=
  ⟨(feedPersist_idempotent_by_url ⟨[], 0⟩ 10 20 { sampleFeed with ID := "" }
      { sampleFeed with ID := "", Title := "New" }
      (by simp [Store.ok]) (by decide) rfl rfl rfl).1,
   (feedPersist_idempotent_by_url ⟨[], 0⟩ 10 20 { sampleFeed with ID := "" }
      { sampleFeed with ID := "", Title := "New" }
      (by simp [Store.ok]) (by decide) rfl rfl rfl).2.1,
   (feedPersist_idempotent_by_url ⟨[], 0⟩ 10 20 { sampleFeed with ID := "" }
      { sampleFeed with ID := "", Title := "New" }
      (by simp [Store.ok]) (by decide) rfl rfl rfl).2.2.1⟩

/-- FeedDelete (storage/feeds.go lines 303-326).  The missing-key guard
checks ID and URL; the delete query then gets an id condition when the ID is
non-empty and a url condition when the TITLE is non-empty (that guard is what
the source really tests).  A row is deleted when it satisfies every condition
added to the query; with no condition at all every row is deleted. -/
def Store.FeedDelete (rows : List FeedRow) (feed : Feed) :
    Option FeedErr × List FeedRow :=
  if feed.ID = "" ∧ feed.URL = "" then (some FeedErr.noFeedKey, rows)
  else
    (none,
      rows.filter (fun r =>
        !((feed.ID == "" || r.id == feed.ID) &&
          (feed.Title == "" || r.url == feed.URL))))

/-- Two rows with distinct urls, the table of the C1 counterexample. -/
def rowA : FeedRow :=
  { id := "a1", created := 1, updated := 1, refreshed := 1, lastAuthored := 1,
    title := "A", url := "http://a.example.org/feed", etag := "", tags := [],
    items := [] }

/-- The second row; its url differs from the one being deleted. -/
def rowB : FeedRow :=
  { id := "b2", created := 2, updated := 2, refreshed := 2, lastAuthored := 2,
    title := "B", url := "http://b.example.org/feed", etag := "", tags := [],
    items := [] }

/-- C1 (code bug): the guard before the url condition tests Title instead of
URL.  For a feed with empty ID, non-empty URL and empty Title (the normal
delete-by-URL input) no condition at all is added, so the DELETE removes
every row of the table: here rowB survives under the claimed behaviour (its
url differs) but is deleted by the code.  The missing-key branch itself does
hold, as the final conjunct shows. -/
theorem feedDelete_deletes_unrelated_rows :
    Store.FeedDelete [rowA, rowB]
        { ID := "", Created := 0, Updated := 0, Refreshed := 0, LastAuthored := 0,
          Title := "", URL := "http://a.example.org/feed", Etag := "", Tags := none,
          Items := [] } =
      (none, []) ∧
    rowB.url ≠ "http://a.example.org/feed" ∧
    Store.FeedDelete [rowA, rowB]
        { ID := "", Created := 0, Updated := 0, Refreshed := 0, LastAuthored := 0,
          Title := "", URL := "", Etag := "", Tags := none, Items := [] } =
      (some FeedErr.noFeedKey, [rowA, rowB]) := by
  refine ⟨rfl, by decide, rfl⟩

/-- One tag condition added to the FeedList query: the table whose tags
column the generated SQL reads (the source hardcodes thoughts.tags inside
json_each), whether the condition is the NOT EXISTS form, and the compared
tag value. -/
structure TagCond where
  table : String
  negated : Bool
  value : String
deriving DecidableEq, Repr

/-- The tag loop of FeedList (storage/feeds.go lines 190-198): empty strings
are skipped, a leading minus yields the NOT EXISTS condition, anything else
the EXISTS condition; both conditions are written against thoughts.tags in
the source. -/
def feedTagConds : List String → List TagCond
  | [] => []
  | tag :: rest =>
    if tag = "" then feedTagConds rest
    else if tag.data.head? = some ('-') then
      ⟨"thoughts", true, String.mk (tag.data.drop 1)⟩ :: feedTagConds rest
    else ⟨"thoughts", false, tag⟩ :: feedTagConds rest

/-- Whether one tag condition holds of a feeds row, when its column reference
resolves: an exclusion requires the value absent, an inclusion present. -/
def TagCond.holds (c : TagCond) (r : FeedRow) : Bool :=
  if c.negated then !(r.tags.contains c.value) else r.tags.contains c.value

/-- FeedList restricted to the tag filter (storage/feeds.go lines 179-219;
the search, refreshed-cutoff, order, limit and offset filters play no role in
the tag claims and are omitted).  The query selects FROM feeds, so a
condition whose json_each argument names any other table does not resolve
and makes the query fail at prepare time; FeedList reacts to a query error
by returning the empty list and a zero count. -/
def Store.FeedList (rows : List FeedRow) (tags : List String) :
    List FeedRow × Nat :=
  let conds := feedTagConds tags
  if conds.all (fun c => c.table == "feeds") then
    let matched := rows.filter (fun r => conds.all (fun c => c.holds r))
    (matched, matched.length)
  else ([], 0)

/-- A feeds row tagged tech and not muted: under the claimed filter
semantics it must be returned by FeedList with tags [-muted, tech]. -/
def techRow : FeedRow :=
  { id := "t1", created := 1, updated := 1, refreshed := 1, lastAuthored := 1,
    title := "Tech", url := "http://tech.example.org/feed", etag := "",
    tags := ["tech"], items := [] }

/-- C4 (code bug): both generated tag conditions read thoughts.tags although
the query is FROM feeds, so the query errors out and FeedList returns the
empty list with count zero; the claimed behaviour would return exactly the
row whose tag set contains tech and not muted. -/
theorem feedList_tag_filter_wrong_table :
    Store.FeedList [techRow] ["-muted", "tech"] = ([], 0) ∧
    feedTagConds ["-muted", "tech"] =
      [⟨"thoughts", true, "muted"⟩, ⟨"thoughts", false, "tech"⟩] ∧
    techRow.tags.contains "tech" = true ∧
    techRow.tags.contains "muted" = false ∧
    [techRow].filter (fun r =>
        (feedTagConds ["-muted", "tech"]).all (fun c => c.holds r)) = [techRow] := by
  refine ⟨rfl, by decide, by decide, by decide, by decide⟩

/-- A row of an indexed base table and likewise an entry of its fts5 shadow
index: the SQLite rowid plus the mirrored text columns (title, url, content
for bookmarks; for thoughts the url column is simply unused, the trigger
structure is identical). -/
structure IdxRow where
  rowid : Nat
  title : String
  url : String
  content : String
deriving DecidableEq, Repr

/-- A write on the base table: INSERT a row, DELETE by rowid, or UPDATE the
text columns of the row with a given rowid (SQL updates issued by the
application never change the rowid). -/
inductive TableOp where
  | ins (r : IdxRow)
  | del (rid : Nat)
  | upd (rid : Nat) (title url content : String)
deriving DecidableEq, Repr

/-- The base table together with its fts shadow index. -/
structure TableState where
  base : List IdxRow
  fts : List IdxRow
deriving DecidableEq, Repr

/-- One base-table write with its AFTER triggers, exactly as the schema
declares them: on insert the ai trigger inserts new.* into the index; on
delete the ad trigger issues the fts5 delete command with old.* for every
deleted row; on update the au trigger issues the delete command with old.*
and re-inserts new.* for every affected row.  The trigger runs synchronously
as part of the same write, which is why one function computes both tables. -/
def applyOp (s : TableState) : TableOp → TableState
  | TableOp.ins r => ⟨s.base ++ [r], s.fts ++ [r]⟩
  | TableOp.del rid =>
    ⟨s.base.filter (fun r => !(r.rowid == rid)),
      (s.base.filter (fun r => r.rowid == rid)).foldl
        (fun f old => f.filter (fun e => !(e.rowid == old.rowid))) s.fts⟩
  | TableOp.upd rid T U C =>
    ⟨s.base.map (fun r => if r.rowid == rid then ⟨r.rowid, T, U, C⟩ else r),
      (s.base.filter (fun r => r.rowid == rid)).foldl
        (fun f old => (f.filter (fun e => !(e.rowid == old.rowid))) ++ [⟨old.rowid, T, U, C⟩])
        s.fts⟩

/-- Run a sequence of base-table writes from a state. -/
def runOps (s : TableState) : List TableOp → TableState
  | [] => s
  | op :: rest => runOps (applyOp s op) rest

/-- A write sequence is valid when every insert carries a rowid not already
present (SQLite assigns unique rowids; a duplicate insert would be rejected
by the storage engine, not reach the trigger). -/
def validSeq (s : TableState) : List TableOp → Bool
  | [] => true
  | TableOp.ins r :: rest =>
    !(s.base.any (fun x => x.rowid == r.rowid)) &&
      validSeq (applyOp s (TableOp.ins r)) rest
  | TableOp.del rid :: rest => validSeq (applyOp s (TableOp.del rid)) rest
  | TableOp.upd rid T U C :: rest => validSeq (applyOp s (TableOp.upd rid T U C)) rest

/-- Invariant carried through the induction: base rowids are unique and the
index is a permutation of the base table. -/
def IdxInv (s : TableState) : Prop :=
  (s.base.map IdxRow.rowid).Nodup ∧ s.fts.Perm s.base

theorem map_eq_self_of (f : IdxRow → IdxRow) :
    ∀ (l : List IdxRow), (∀ a ∈ l, f a = a) → l.map f = l := by
  intro l h
  induction l with
  | nil => rfl
  | cons x xs ih =>
    rw [List.map_cons, h x (by simp), ih (fun a ha => h a (by simp [ha]))]

theorem filter_key_cases :
    ∀ (l : List IdxRow), (l.map IdxRow.rowid).Nodup → ∀ (rid : Nat),
      (l.filter (fun r => r.rowid == rid) = [] ∧ ∀ r ∈ l, r.rowid ≠ rid) ∨
      ∃ r0 l1 l2, l = l1 ++ r0 :: l2 ∧ r0.rowid = rid ∧
        l.filter (fun r => r.rowid == rid) = [r0] ∧
        (∀ x ∈ l1, x.rowid ≠ rid) ∧ (∀ x ∈ l2, x.rowid ≠ rid) := by
  intro l
  induction l with
  | nil => intro _ rid; exact Or.inl ⟨rfl, by simp⟩
  | cons x xs ih =>
    intro hnd rid
    have hnd' : x.rowid ∉ xs.map IdxRow.rowid ∧ (xs.map IdxRow.rowid).Nodup := by
      simpa [List.nodup_cons] using hnd
    by_cases hx : (x.rowid == rid) = true
    · have hkey : ∀ y ∈ xs, y.rowid ≠ rid := by
        intro y hy hyr
        have hxy : x.rowid = y.rowid := (beq_iff_eq.mp hx).trans hyr.symm
        exact hnd'.1 (hxy ▸ List.mem_map_of_mem IdxRow.rowid hy)
      refine Or.inr ⟨x, [], xs, by simp, beq_iff_eq.mp hx, ?_, by simp, hkey⟩
      have hxs : xs.filter (fun r => r.rowid == rid) = [] := by
        rw [List.filter_eq_nil_iff]
        intro y hy
        simp only [beq_iff_eq]
        exact hkey y hy
      simp [List.filter_cons, hx, hxs]
    · rcases ih hnd'.2 rid with ⟨hfil, hall⟩ | ⟨r0, l1, l2, hdec, hr0, hfil, hl1, hl2⟩
      · refine Or.inl ⟨?_, ?_⟩
        · simp [List.filter_cons, hx, hfil]
        · intro r hr
          rcases List.mem_cons.mp hr with rfl | hr'
          · exact fun hc => hx (beq_iff_eq.mpr hc)
          · exact hall r hr'
      · refine Or.inr ⟨r0, x :: l1, l2, by rw [hdec]; rfl, hr0, ?_, ?_, hl2⟩
        · simp [List.filter_cons, hx, hfil]
        · intro y hy
          rcases List.mem_cons.mp hy with rfl | hy'
          · exact fun hc => hx (beq_iff_eq.mpr hc)
          · exact hl1 y hy'

theorem idxInv_ins (s : TableState) (r : IdxRow) (hInv : IdxInv s)
    (hfresh : (s.base.any (fun x => x.rowid == r.rowid)) = false) :
    IdxInv (applyOp s (TableOp.ins r)) := by
  obtain ⟨hnd, hperm⟩ := hInv
  have hfresh' : ∀ x ∈ s.base, x.rowid ≠ r.rowid := by
    intro x hx hc
    have := List.any_eq_false.mp hfresh x hx
    exact this (beq_iff_eq.mpr hc)
  constructor
  · simp only [applyOp, List.map_append, List.map_cons, List.map_nil]
    rw [List.nodup_append]
    refine ⟨hnd, List.nodup_singleton _, ?_⟩
    intro a ha hb
    rcases List.mem_map.mp ha with ⟨x, hx, rfl⟩
    have : x.rowid = r.rowid := by simpa using hb
    exact hfresh' x hx this
  · exact hperm.append_right [r]

theorem idxInv_del (s : TableState) (rid : Nat) (hInv : IdxInv s) :
    IdxInv (applyOp s (TableOp.del rid)) := by
  obtain ⟨hnd, hperm⟩ := hInv
  rcases filter_key_cases s.base hnd rid with ⟨hfil, hall⟩ |
    ⟨r0, l1, l2, hdec, hr0, hfil, hl1, hl2⟩
  · have hbase : s.base.filter (fun r => !(r.rowid == rid)) = s.base := by
      rw [List.filter_eq_self]
      intro a ha
      simp only [Bool.not_eq_true']
      exact beq_eq_false_iff_ne.mpr (hall a ha)
    refine ⟨?_, ?_⟩ <;> simp only [applyOp]
    · rw [hbase]; exact hnd
    · rw [hfil, hbase]
      simp only [List.foldl_nil]
      exact hperm
  · refine ⟨?_, ?_⟩ <;> simp only [applyOp]
    · exact List.Nodup.sublist (List.Sublist.map _ (List.filter_sublist _)) hnd
    · rw [hfil]
      simp only [List.foldl_cons, List.foldl_nil]
      rw [hr0]
      exact hperm.filter _

theorem idxInv_upd (s : TableState) (rid : Nat) (T U C : String)
    (hInv : IdxInv s) : IdxInv (applyOp s (TableOp.upd rid T U C)) := by
  obtain ⟨hnd, hperm⟩ := hInv
  rcases filter_key_cases s.base hnd rid with ⟨hfil, hall⟩ |
    ⟨r0, l1, l2, hdec, hr0, hfil, hl1, hl2⟩
  · have hbase :
        s.base.map (fun r => if r.rowid == rid then (⟨r.rowid, T, U, C⟩ : IdxRow) else r)
          = s.base := by
      apply map_eq_self_of
      intro a ha
      rw [if_neg]
      intro hc
      exact hall a ha (beq_iff_eq.mp hc)
    refine ⟨?_, ?_⟩ <;> simp only [applyOp]
    · rw [hbase]; exact hnd
    · rw [hfil, hbase]
      simp only [List.foldl_nil]
      exact hperm
  · have hbase :
        s.base.map (fun r => if r.rowid == rid then (⟨r.rowid, T, U, C⟩ : IdxRow) else r)
          = l1 ++ (⟨r0.rowid, T, U, C⟩ : IdxRow) :: l2 := by
      rw [hdec, List.map_append, List.map_cons]
      rw [map_eq_self_of _ l1 (fun a ha => by
        rw [if_neg]; intro hc; exact hl1 a ha (beq_iff_eq.mp hc))]
      rw [map_eq_self_of _ l2 (fun a ha => by
        rw [if_neg]; intro hc; exact hl2 a ha (beq_iff_eq.mp hc))]
      rw [if_pos (beq_iff_eq.mpr hr0)]
    have hbfil : s.base.filter (fun e => !(e.rowid == r0.rowid)) = l1 ++ l2 := by
      rw [hdec, List.filter_append, List.filter_cons]
      have hq0 : (!(r0.rowid == r0.rowid)) = false := by simp
      rw [hq0]
      rw [List.filter_eq_self.mpr (fun a ha => by
        simp only [Bool.not_eq_true']
        exact beq_eq_false_iff_ne.mpr (fun hc => hl1 a ha (hc.trans hr0)))]
      rw [List.filter_eq_self.mpr (fun a ha => by
        simp only [Bool.not_eq_true']
        exact beq_eq_false_iff_ne.mpr (fun hc => hl2 a ha (hc.trans hr0)))]
      simp
    refine ⟨?_, ?_⟩ <;> simp only [applyOp]
    · rw [hbase]
      have : (l1 ++ (⟨r0.rowid, T, U, C⟩ : IdxRow) :: l2).map IdxRow.rowid
          = (l1 ++ r0 :: l2).map IdxRow.rowid := by
        simp [List.map_append]
      rw [this, ← hdec]
      exact hnd
    · rw [hfil, hbase]
      simp only [List.foldl_cons, List.foldl_nil]
      have hstep1 :
          List.Perm (s.fts.filter (fun e => !(e.rowid == r0.rowid))) (l1 ++ l2) := by
        rw [← hbfil]
        exact hperm.filter _
      have hstep2 :
          List.Perm ((l1 ++ l2) ++ [(⟨r0.rowid, T, U, C⟩ : IdxRow)])
            (l1 ++ (⟨r0.rowid, T, U, C⟩ : IdxRow) :: l2) := by
        rw [List.append_assoc]
        exact List.Perm.append_left l1 (List.perm_append_singleton _ _)
      exact (hstep1.append_right _).trans hstep2

theorem idxInv_runOps :
    ∀ (ops : List TableOp) (s : TableState),
      IdxInv s → validSeq s ops = true → IdxInv (runOps s ops) := by
  intro ops
  induction ops with
  | nil => intro s h _; exact h
  | cons op rest ih =>
    intro s h hv
    cases op with
    | ins r =>
      have hv' : (!(s.base.any (fun x => x.rowid == r.rowid))) = true ∧
          validSeq (applyOp s (TableOp.ins r)) rest = true := by
        simpa [validSeq, Bool.and_eq_true] using hv
      exact ih _ (idxInv_ins s r h (by simpa using hv'.1)) hv'.2
    | del rid =>
      exact ih _ (idxInv_del s rid h) (by simpa [validSeq] using hv)
    | upd rid T U C =>
      exact ih _ (idxInv_upd s rid T U C h) (by simpa [validSeq] using hv)

/-- C8: starting from the empty base table and empty index (what the schema
creates), after any valid sequence of inserts, updates and deletes the fts
shadow index holds exactly the base table's rows: a permutation of it, hence
in particular the same membership (no orphaned and no missing entries).  The
triggers run inside applyOp together with the base write, i.e. synchronously
with it. -/
theorem fts_index_mirrors_base (ops : List TableOp)
    (h : validSeq ⟨[], []⟩ ops = true) :
    ((runOps ⟨[], []⟩ ops).fts).Perm ((runOps ⟨[], []⟩ ops).base) ∧
    ∀ r : IdxRow, r ∈ (runOps ⟨[], []⟩ ops).fts ↔ r ∈ (runOps ⟨[], []⟩ ops).base := by
  have hinv := idxInv_runOps ops ⟨[], []⟩ ⟨by simp, List.Perm.refl []⟩ h
  exact ⟨hinv.2, fun r => hinv.2.mem_iff⟩

/-- A small concrete write sequence: two inserts, an update of row 1, a
delete of row 2. -/
def opsSample : List TableOp :=
  [TableOp.ins ⟨1, "t1", "u1", "c1"⟩, TableOp.ins ⟨2, "t2", "u2", "c2"⟩,
   TableOp.upd 1 "t1b" "u1b" "c1b", TableOp.del 2]

/-- Witness for C8 at the concrete write sequence. -/
theorem fts_index_mirrors_base_witness :
    validSeq ⟨[], []⟩ opsSample = true ∧
    ((runOps ⟨[], []⟩ opsSample).fts).Perm ((runOps ⟨[], []⟩ opsSample).base) :=
  ⟨by decide, (fts_index_mirrors_base opsSample (by decide)).1⟩

end Falls
